import Mathlib

deriving instance DecidableEq for Except

/-!
Shallow embedding of the DARC (Distributed Access Right Control) core of the
repository: the data model (Darc, Rules, Identity, Signer, Signature, Request),
the canonical ID hash, the rules operations, the evolution protocol
(Evolve / NewDarcSignature), the chain verifier (VerifyWithCB,
verifyOneEvolution, checkEvolutionPermission) and the request evaluator
(CheckRequest, Request.Hash).

Byte strings are modelled as `List Nat`, Go errors as `Except String`, and
code paths that can additionally panic (nil dereference, out-of-range index)
as the three-valued result type `GoR`.  External cryptographic primitives
(SHA-256, Schnorr over Ed25519, ECDSA-P384 over PKIX keys, kyber point
stringification) are out of scope of the repository and are abstracted as the
fields of a `Crypto` parameter; every definition below is otherwise translated
directly from the Go source.

The expression engine (package `expression`) is repository code that is not
part of the provided sources; its definitions below are modelled from the
specification (a small boolean grammar over identity-string terms, evaluated
against an oracle) and are marked `Modelled from the spec:`.
-/

namespace DarcSpec

/-- Result of a Go function that may return normally, return an error, or
panic at runtime (nil dereference / index out of range). -/
inductive GoR (α : Type) where
  | ok : α → GoR α
  | err : String → GoR α
  | crash : String → GoR α
deriving DecidableEq, Repr

/-- True when a `GoR` is an error return (not a normal return, not a panic). -/
def GoR.isErr : GoR α → Bool
  | .err _ => true
  | _ => false

/-- True when a `GoR` is a runtime panic. -/
def GoR.isCrash : GoR α → Bool
  | .crash _ => true
  | _ => false

/-- True when an `Except` is a normal return. -/
def isOkE : Except String α → Bool
  | .ok _ => true
  | .error _ => false

/-- Abstraction of the external cryptographic primitives used by the darc
package: SHA-256, Schnorr signatures on Ed25519 (kyber), the whole body of
`IdentityX509EC.Verify` (PKIX parse + SHA-384 + ASN.1 + ECDSA verify, all Go
standard library), and the kyber point-to-string rendering used in identity
strings.  These are external libraries, not repository code. -/
structure Crypto where
  sha256 : List Nat → List Nat
  pointStr : Nat → String
  schnorrSign : Nat → List Nat → Except String (List Nat)
  schnorrVerify : Nat → List Nat → List Nat → Except String Unit
  ecdsaP384Verify : List Nat → List Nat → List Nat → Except String Unit

/-- Bytes of a Go string (`[]byte(s)`), modelled as the codepoint sequence;
for the ASCII strings appearing in this package this is the UTF-8 byte
sequence, and in general the encoding is injective and order-preserving. -/
def strBytes (s : String) : List Nat := s.data.map Char.toNat

/-- Model of `strings.HasPrefix s pre` from the Go standard library. -/
def strStarts (s pre : String) : Bool := pre.data.isPrefixOf s.data

/-- Modelled from the spec: the expression language of the missing
`expression` package is a boolean grammar whose terms are identity strings,
with conjunction and disjunction. -/
inductive ExprAST where
  | term : String → ExprAST
  | and : ExprAST → ExprAST → ExprAST
  | or : ExprAST → ExprAST → ExprAST
deriving DecidableEq, Repr

/-- Modelled from the spec: byte serialization of an expression
(`expression.Expr` is `[]byte` in Go); `Darc.GetID` hashes these bytes. -/
def exprBytes : ExprAST → List Nat
  | .term s => 0 :: strBytes s
  | .and a b => 1 :: (exprBytes a ++ exprBytes b)
  | .or a b => 2 :: (exprBytes a ++ exprBytes b)

/-- Modelled from the spec: evaluation of an expression against an oracle
deciding each identity-string term. -/
def evalExpr (oracle : String → Bool) : ExprAST → Bool
  | .term s => oracle s
  | .and a b => evalExpr oracle a && evalExpr oracle b
  | .or a b => evalExpr oracle a || evalExpr oracle b

/-- Modelled from the spec: `expression.ParseExpr` applied to a bound parser.
A missing expression (the Go nil `Expr` obtained from a map access on an
absent action) is malformed and reported as a parse error. -/
def ParseExpr (oracle : String → Bool) : Option ExprAST → Except String Bool
  | none => .error "parse error"
  | some ast => .ok (evalExpr oracle ast)

/-- Modelled from the spec: `expression.DefaultParser expr ids...` evaluates
the expression with the membership oracle (term satisfied iff it is one of
the given identity strings). -/
def DefaultParser (e : Option ExprAST) (ids : List String) : Except String Bool :=
  ParseExpr (fun s => ids.contains s) e

/-- Modelled from the spec: `expression.InitOrExpr ids...` is the disjunction
of the given identity-string terms (the default evolution rule). -/
def InitOrExpr : List String → ExprAST
  | [] => .term ""
  | [s] => .term s
  | s :: rest => .or (.term s) (InitOrExpr rest)

/-- One lowercase hex digit, as in Go `%x` formatting. -/
def hexDigit (n : Nat) : Char :=
  if n < 10 then Char.ofNat (48 + n) else Char.ofNat (87 + n)

/-- Two-digit lowercase hex rendering of one byte. -/
def hexByte (n : Nat) : String :=
  String.mk [hexDigit (n / 16 % 16), hexDigit (n % 16)]

/-- Lowercase hex rendering of a byte string, as in Go `fmt.Sprintf("%x", b)`. -/
def hexStr (bs : List Nat) : String := String.join (bs.map hexByte)

/-- `IdentityDarc` from struct.go: a reference to a Darc by its ID. -/
structure IdentityDarc where
  ID : List Nat
deriving DecidableEq, Repr

/-- `IdentityEd25519` from struct.go: an Ed25519 public key (kyber point,
abstracted as a `Nat` handle). -/
structure IdentityEd25519 where
  Point : Nat
deriving DecidableEq, Repr

/-- `IdentityX509EC` from struct.go: a PKIX-DER encoded public key. -/
structure IdentityX509EC where
  Public : List Nat
deriving DecidableEq, Repr

/-- `Identity` from struct.go: three optional pointers, at most one active;
`Identity.Type` dispatches on them in the order Darc, Ed25519, X509EC. -/
structure Identity where
  Darc : Option IdentityDarc
  Ed25519 : Option IdentityEd25519
  X509EC : Option IdentityX509EC
deriving DecidableEq, Repr

/-- `Identity.Type`: 0 = Darc, 1 = Ed25519, 2 = X509EC, -1 = none. -/
def Identity.typeT (id : Identity) : Int :=
  if id.Darc.isSome then 0
  else if id.Ed25519.isSome then 1
  else if id.X509EC.isSome then 2
  else -1

/-- `Identity.String`: the canonical string form of an identity, dispatching
in the same order as `Identity.Type`. -/
def Identity.str (C : Crypto) (id : Identity) : String :=
  match id.Darc with
  | some dd => "darc:" ++ hexStr dd.ID
  | none =>
    match id.Ed25519 with
    | some e => "ed25519:" ++ C.pointStr e.Point
    | none =>
      match id.X509EC with
      | some x => "x509ec:" ++ hexStr x.Public
      | none => "No identity"

/-- `IdentityEd25519.Verify`: Schnorr verification against the stored point. -/
def IdentityEd25519.Verify (C : Crypto) (ide : IdentityEd25519)
    (msg sig : List Nat) : Except String Unit :=
  C.schnorrVerify ide.Point msg sig

/-- `IdentityX509EC.Verify`: the ECDSA-P384 pipeline (PKIX parse, SHA-384,
ASN.1 decode, ECDSA verify) against the stored DER public key, abstracted as
one external operation. -/
def IdentityX509EC.Verify (C : Crypto) (idkc : IdentityX509EC)
    (msg sig : List Nat) : Except String Unit :=
  C.ecdsaP384Verify idkc.Public msg sig

/-- `Identity.Verify`: dispatch on the identity kind in the order of
`Identity.Type`; a Darc identity cannot verify a raw signature. -/
def Identity.Verify (C : Crypto) (id : Identity) (msg sig : List Nat) :
    Except String Unit :=
  match id.Darc with
  | some _ => .error "cannot verify a darc-signature"
  | none =>
    match id.Ed25519 with
    | some e => IdentityEd25519.Verify C e msg sig
    | none =>
      match id.X509EC with
      | some x => IdentityX509EC.Verify C x msg sig
      | none => .error "unknown identity"

/-- `NewIdentityDarc` from the source. -/
def NewIdentityDarc (id : List Nat) : Identity :=
  { Darc := some { ID := id }, Ed25519 := none, X509EC := none }

/-- `NewIdentityEd25519` from the source. -/
def NewIdentityEd25519 (point : Nat) : Identity :=
  { Darc := none, Ed25519 := some { Point := point }, X509EC := none }

/-- `SignerEd25519` from struct.go: public point and secret scalar. -/
structure SignerEd25519 where
  Point : Nat
  Secret : Nat
deriving DecidableEq, Repr

/-- `SignerX509EC` from struct.go. -/
structure SignerX509EC where
  Point : List Nat
  secret : List Nat
deriving DecidableEq, Repr

/-- `Signer` from struct.go: one of the two signer kinds. -/
structure Signer where
  Ed25519 : Option SignerEd25519
  X509EC : Option SignerX509EC
deriving DecidableEq, Repr

/-- `Signer.Type`: 1 = Ed25519, 2 = X509EC, -1 = empty. -/
def Signer.typeT (s : Signer) : Int :=
  if s.Ed25519.isSome then 1
  else if s.X509EC.isSome then 2
  else -1

/-- `Signer.Identity`: the identity of the matching kind, or nil.  (Note that
the Go source populates the X509EC identity Public field from the signer
Point field.) -/
def Signer.IdentityOf (s : Signer) : Option Identity :=
  match s.Ed25519 with
  | some e => some (NewIdentityEd25519 e.Point)
  | none =>
    match s.X509EC with
    | some x => some { Darc := none, Ed25519 := none, X509EC := some { Public := x.Point } }
    | none => none

/-- `SignerEd25519.Sign`: Schnorr signature with the secret scalar. -/
def SignerEd25519.Sign (C : Crypto) (eds : SignerEd25519) (msg : List Nat) :
    Except String (List Nat) :=
  C.schnorrSign eds.Secret msg

/-- `SignerX509EC.Sign`: not implemented in the source. -/
def SignerX509EC.Sign (_kcs : SignerX509EC) (_msg : List Nat) :
    Except String (List Nat) :=
  .error "not yet implemented"

/-- `Signer.Sign`: reject an empty message, then dispatch on the signer kind
(the Go `case 0` arm is dead code because `Signer.Type` never returns 0). -/
def Signer.Sign (C : Crypto) (s : Signer) (msg : List Nat) :
    Except String (List Nat) :=
  if msg.isEmpty then .error "nothing to sign, message is empty"
  else
    match s.Ed25519 with
    | some e => SignerEd25519.Sign C e msg
    | none =>
      match s.X509EC with
      | some x => SignerX509EC.Sign x msg
      | none => .error "unknown signer type"

/-- Action names (`type Action string`). -/
abbrev Action := String

/-- `Rules` (`map[Action]expression.Expr`), modelled as an association list;
Go map extensionality is recovered through `List.lookup`. -/
abbrev RulesT := List (Action × ExprAST)

/-- The distinguished evolution action (`const evolve = "_evolve"`). -/
def evolveAction : Action := "_evolve"

/-- Map read `r[a]` as an `Option`. -/
def RulesT.lookupE (r : RulesT) (a : Action) : Option ExprAST :=
  List.lookup a r

/-- `Rules.Contains`. -/
def RulesT.Contains (r : RulesT) (a : Action) : Bool :=
  (r.lookupE a).isSome

/-- Map write `r[a] = e`: replace the entry when the action is present,
append it otherwise. -/
def RulesT.set (r : RulesT) (a : Action) (e : ExprAST) : RulesT :=
  if (r.lookupE a).isSome then
    r.map (fun p => if p.1 = a then (a, e) else p)
  else r ++ [(a, e)]

/-- Map delete `delete(r, a)`. -/
def RulesT.del (r : RulesT) (a : Action) : RulesT :=
  r.filter (fun p => ¬ p.1 = a)

/-- `isEvolution` from the source. -/
def isEvolution (a : Action) : Bool := a = evolveAction

/-- `Rules.GetEvolutionExpr`: the Go map access returns the nil expression
when `_evolve` is absent, modelled as `none`. -/
def RulesT.GetEvolutionExpr (r : RulesT) : Option ExprAST :=
  r.lookupE evolveAction

/-- `Rules.AddRule`: the action must not exist.  The Go receiver map is
mutated in place; the model returns the resulting map together with the
error value. -/
def RulesT.AddRule (r : RulesT) (a : Action) (e : ExprAST) :
    RulesT × Except String Unit :=
  if (r.lookupE a).isSome then (r, .error "action already exists")
  else (r.set a e, .ok ())

/-- Go unexported `updateRule`: the action must exist. -/
def RulesT.updateRule (r : RulesT) (a : Action) (e : ExprAST) :
    RulesT × Except String Unit :=
  if (r.lookupE a).isSome then (r.set a e, .ok ())
  else (r, .error "action does not exist")

/-- `Rules.UpdateRule`: generic update, forbidden on the evolve action. -/
def RulesT.UpdateRule (r : RulesT) (a : Action) (e : ExprAST) :
    RulesT × Except String Unit :=
  if isEvolution a then (r, .error "cannot update evolution")
  else r.updateRule a e

/-- `Rules.DeleteRules`: forbidden on the evolve action, and the action must
exist. -/
def RulesT.DeleteRules (r : RulesT) (a : Action) :
    RulesT × Except String Unit :=
  if isEvolution a then (r, .error "cannot delete evolution")
  else if (r.lookupE a).isSome then (r.del a, .ok ())
  else (r, .error "action does not exist")

/-- `Rules.UpdateEvolution`: dedicated update of the evolve action. -/
def RulesT.UpdateEvolution (r : RulesT) (e : ExprAST) :
    RulesT × Except String Unit :=
  r.updateRule evolveAction e

/-- `InitRules`: a fresh mapping with only the evolve action, set to the
disjunction of the owner identity strings. -/
def InitRules (C : Crypto) (owners : List Identity) : RulesT :=
  [(evolveAction, InitOrExpr (owners.map (Identity.str C)))]

/-- Signature over a Darc (`Signature` in struct.go), parameterized by the
darc type to allow the nested recursion `Darc -> Signature -> Path`. -/
structure SignatureG (D : Type) where
  Signature : List Nat
  Signer : Identity
  Path : List D
deriving Repr

/-- `Darc` from struct.go: version, description, base ID, rules, and an
optional delegation signature whose path holds whole previous darcs. -/
inductive Darc where
  | mk : (Version : Nat) → (Description : List Nat) → (BaseID : List Nat) →
      (RulesF : RulesT) → (SignatureF : Option (SignatureG Darc)) → Darc

/-- The signature type of the source (`Signature`). -/
abbrev DSignature := SignatureG Darc

/-- Field `Version`. -/
def Darc.Version : Darc → Nat
  | .mk v _ _ _ _ => v

/-- Field `Description`. -/
def Darc.Description : Darc → List Nat
  | .mk _ de _ _ _ => de

/-- Field `BaseID`. -/
def Darc.BaseID : Darc → List Nat
  | .mk _ _ b _ _ => b

/-- Field `Rules`. -/
def Darc.RulesF : Darc → RulesT
  | .mk _ _ _ r _ => r

/-- Field `Signature`. -/
def Darc.SignatureF : Darc → Option DSignature
  | .mk _ _ _ _ s => s

/-- Assignment `d.Signature = s`. -/
def Darc.setSignature : Darc → Option DSignature → Darc
  | .mk v de b r _, s => .mk v de b r s

/-- Assignment `d.Version = v`. -/
def Darc.setVersion : Darc → Nat → Darc
  | .mk _ de b r s, v => .mk v de b r s

/-- Assignment `d.BaseID = b`. -/
def Darc.setBaseID : Darc → List Nat → Darc
  | .mk v de _ r s, b => .mk v de b r s

/-- `NewDarc`: a genesis darc (version 0, empty base ID, no signature). -/
def NewDarc (rules : RulesT) (desc : List Nat) : Darc :=
  .mk 0 desc [] rules none

/-- Lexicographic order on byte strings, as Go compares strings. -/
def bytesLe : List Nat → List Nat → Bool
  | [], _ => true
  | _ :: _, [] => false
  | a :: as, b :: bs => if a < b then true else if a = b then bytesLe as bs else false

/-- The string order used by `sort.Strings` (byte-wise lexicographic). -/
def strLeB (a b : String) : Bool := bytesLe (strBytes a) (strBytes b)

/-- The 8 little-endian bytes of `binary.LittleEndian.PutUint64`. -/
def uint64le (v : Nat) : List Nat :=
  [v % 256, v / 256 % 256, v / 256 ^ 2 % 256, v / 256 ^ 3 % 256,
   v / 256 ^ 4 % 256, v / 256 ^ 5 % 256, v / 256 ^ 6 % 256, v / 256 ^ 7 % 256]

/-- The bytes contributed to the ID hash by the rules: for each action in
lexicographic order of action name (Go `sort.Strings`), the action name bytes
followed by the expression bytes read back from the map. -/
def rulesHashBytes (r : RulesT) : List Nat :=
  (List.insertionSort (fun a b => strLeB a b = true) (r.map Prod.fst)).flatMap
    (fun a => strBytes a ++ (match r.lookupE a with
      | some e => exprBytes e
      | none => []))

/-- The exact byte string hashed by `Darc.GetID`: version as 8 little-endian
bytes, then description, then base ID, then the sorted rules. -/
def Darc.idPreimage (d : Darc) : List Nat :=
  uint64le d.Version ++ d.Description ++ d.BaseID ++ rulesHashBytes d.RulesF

/-- `Darc.GetID`: SHA-256 digest of the invariant fields; the signature is
not hashed. -/
def Darc.GetID (C : Crypto) (d : Darc) : List Nat :=
  C.sha256 d.idPreimage

/-- `Darc.GetBaseID`: the darc's own ID at version 0, the stored base ID
otherwise. -/
def Darc.GetBaseID (C : Crypto) (d : Darc) : List Nat :=
  if d.Version = 0 then d.GetID C else d.BaseID

/-- `Darc.GetIdentityString`. -/
def Darc.GetIdentityString (C : Crypto) (d : Darc) : String :=
  Identity.str C (NewIdentityDarc (d.GetID C))

/-- `hashAll`: SHA-256 of the concatenation of the messages (the Go hash
writer never fails). -/
def hashAll (C : Crypto) (msgs : List (List Nat)) : List Nat :=
  C.sha256 msgs.flatten

/-- `darcsMsg`: concatenation of the IDs of the darcs in a path. -/
def darcsMsg (C : Crypto) (darcs : List Darc) : List Nat :=
  (darcs.map (Darc.GetID C)).flatten

/-- `Signature.GetPathMsg`. -/
def SignatureG.GetPathMsg (C : Crypto) (s : DSignature) : List Nat :=
  darcsMsg C s.Path

/-- `Signature.PathContains`. -/
def SignatureG.PathContains (s : DSignature) (cb : Darc → Bool) : Bool :=
  s.Path.any cb

/-- `NewDarcSignature`: sign `sha256(id || pathMsg)` with the given signer.
The final Go line dereferences `signer.Identity()`; that pointer can only be
nil when `Sign` already failed, so the guarding branch is unreachable. -/
def NewDarcSignature (C : Crypto) (signer : Option Signer) (id : List Nat)
    (path : List Darc) : Except String DSignature :=
  match signer with
  | none => .error "signer missing"
  | some sg =>
    if id.isEmpty then .error "id missing"
    else if path.isEmpty then .error "path missing"
    else
      match sg.Sign C (hashAll C [id, darcsMsg C path]) with
      | .error e => .error e
      | .ok sigBytes =>
        match sg.IdentityOf with
        | some idn => .ok { Signature := sigBytes, Signer := idn, Path := path }
        | none => .error "PANIC: nil signer identity"

/-- `Signature.verify`: check the root of the path against the base darc and
verify the raw signature over `sha256(msg || pathMsg)`. -/
def SignatureG.verify (C : Crypto) (s : DSignature) (msg base : List Nat) :
    Except String Unit :=
  if base.isEmpty then .error "base-darc is missing"
  else
    match s.Path with
    | [] => .error "no path stored in signaturepath"
    | p0 :: _ =>
      if ¬ p0.GetID C = base then .error "Base-darc is not at root of path"
      else Identity.Verify C s.Signer (hashAll C [msg, s.GetPathMsg C]) s.Signature

/-- Satisfaction of the evolve rule of one darc under `DefaultParser`, the
boolean used by the path scan of `checkEvolutionPermission` (an evaluation
error counts as unsatisfied). -/
def evolveSatB (ids : List String) (d : Darc) : Bool :=
  match DefaultParser d.RulesF.GetEvolutionExpr ids with
  | .ok b => b
  | .error _ => false

/-- The comparison `d.GetIdentityString() == s` used by the callbacks of
`checkEvolutionPermission`. -/
def identEq (C : Crypto) (s : String) (d : Darc) : Bool :=
  d.GetIdentityString C = s

/-- The stateful scan over the signature path of `checkEvolutionPermission`:
`started` models the Go variable `pathSearchStart`, which is set when the
scan reaches an element whose identity string equals `s`; from that element
on (inclusive), every element's evolve rule is tried. -/
def pathScan (C : Crypto) (ids : List String) (s : String) :
    List Darc → Bool → Bool
  | [], _ => false
  | d :: rest, started =>
    if started || identEq C s d then
      evolveSatB ids d || pathScan C ids s rest true
    else pathScan C ids s rest false

/-- The oracle that `checkEvolutionPermission` installs with
`expression.InitParser`, parameterized by the function `inner` used for the
`d.Verify()` call on fetched darcs (in the source this is always the plain
`Darc.Verify`; the parameter breaks the recursive knot).  A term that does
not start with "darc" is plain membership.  For a "darc"-prefixed term the
fetched darc must verify and its path must contain an element whose identity
string is the term; then the latest evolve rule is tried, and on failure the
path is scanned starting from the element equal to the term.  Two branches
marked PANIC below are nil dereferences in the Go source (`d.Signature` on a
nil or genesis fetched darc); they are unreachable under the real `inner`
and are modelled as unsatisfied. -/
def evolutionOracleGen (C : Crypto) (inner : Option Darc → Except String Unit)
    (getDarc : String → Option Darc) (ids : List String) (s : String) : Bool :=
  if strStarts s "darc" then
    if ¬ isOkE (inner (getDarc s)) then false
    else
      match getDarc s with
      | none => false -- PANIC in Go (nil darc passed verification): unreachable
      | some d =>
        match d.SignatureF with
        | none => false -- PANIC in Go (genesis darc has a nil signature)
        | some sg =>
          if ¬ sg.PathContains (identEq C s) then false
          else
            match DefaultParser d.RulesF.GetEvolutionExpr ids with
            | .ok true => true
            | _ => pathScan C ids s sg.Path false
  else ids.contains s

/-- `checkEvolutionPermission`: evaluate the expression under the oracle;
a parse failure or a false result is an error. -/
def checkEvolutionPermissionGen (C : Crypto)
    (inner : Option Darc → Except String Unit)
    (getDarc : String → Option Darc) (expr : Option ExprAST)
    (ids : List String) : Except String Unit :=
  match ParseExpr (evolutionOracleGen C inner getDarc ids) expr with
  | .error e => .error ("evaluation failed with error: " ++ e)
  | .ok true => .ok ()
  | .ok false => .error "expression evaluated to false"

/-- `verifyOneEvolution`: base ID present and matching, version incremented
by one, signer authorized by the previous darc's evolve rule, and the raw
signature valid.  The Go source dereferences `prevDarc` and
`newDarc.Signature` without nil checks; those panics are modelled as
errors marked PANIC (both are unreachable from `VerifyWithCB` on the inputs
used by the claims below). -/
def verifyOneEvolutionGen (C : Crypto)
    (inner : Option Darc → Except String Unit) (newD : Darc)
    (prevD : Option Darc) (getDarc : String → Option Darc) :
    Except String Unit :=
  if newD.BaseID.isEmpty then .error "nil base ID"
  else
    match prevD with
    | none => .error "PANIC: nil previous darc"
    | some pv =>
      if ¬ newD.GetBaseID C = pv.GetBaseID C then .error "base IDs are not equal"
      else if ¬ newD.Version = pv.Version + 1 then .error "incorrect version"
      else
        match newD.SignatureF with
        | none => .error "PANIC: nil signature"
        | some sg =>
          match checkEvolutionPermissionGen C inner getDarc
              pv.RulesF.GetEvolutionExpr [sg.Signer.str C] with
          | .error e => .error e
          | .ok _ => sg.verify C (newD.GetID C) (pv.GetBaseID C)

/-- The walk over `d.Signature.Path` in `VerifyWithCB`: the first element may
be taken as trusted root when it has version 0 and no previous element was
seen (the Go loop records it as `prev` and continues); every other element
must verify as one evolution from its predecessor. -/
def loopPathGo (C : Crypto) (inner : Option Darc → Except String Unit)
    (getDarc : String → Option Darc) :
    Nat → Option Darc → List Darc → Except String Unit
  | _, _, [] => .ok ()
  | i, prev, dP :: rest =>
    if prev.isNone ∧ dP.Version = 0 then
      loopPathGo C inner getDarc (i + 1) (some dP) rest
    else
      match verifyOneEvolutionGen C inner dP prev getDarc with
      | .error e =>
        .error ("verification failed on index " ++ toString i ++ " with error: " ++ e)
      | .ok _ => loopPathGo C inner getDarc (i + 1) (some dP) rest

/-- `Darc.GetSignerDarc`: the last element of the signature path, which must
be exactly one version older. -/
def Darc.GetSignerDarc (d : Darc) : Except String (Option Darc) :=
  match d.SignatureF with
  | none => .ok none
  | some sg =>
    match sg.Path.getLast? with
    | none => .error "signature but no darcs"
    | some prev =>
      if ¬ prev.Version + 1 = d.Version then
        .error "not clean evolution - version mismatch"
      else .ok (some prev)

/-- `Darc.VerifyWithCB` parameterized by the function `inner` used for the
recursive `d.Verify()` call inside the permission oracle: nil check, genesis
acceptance, signature presence, walk of the path, and one final evolution
check from the signer darc.  When the signature is present with a non-empty
path, `GetSignerDarc` cannot return a nil darc, so that PANIC branch (a nil
dereference in Go) is unreachable. -/
def VerifyCore (C : Crypto) (inner : Option Darc → Except String Unit)
    (od : Option Darc) (getDarc : String → Option Darc) :
    Except String Unit :=
  match od with
  | none => .error "darc is nil"
  | some d =>
    if d.Version = 0 then .ok ()
    else
      match d.SignatureF with
      | none => .error "signature missing"
      | some sg =>
        if sg.Path.isEmpty then .error "signature missing"
        else
          match loopPathGo C inner getDarc 0 none sg.Path with
          | .error e => .error e
          | .ok _ =>
            match d.GetSignerDarc with
            | .error e => .error e
            | .ok none => .error "PANIC: nil signer darc"
            | .ok (some signerD) =>
              verifyOneEvolutionGen C inner d (some signerD) getDarc

/-- The innermost behaviour of `Darc.Verify`: inside a plain `Verify`, the
callback is constantly nil, so the oracle's own `d.Verify()` call receives a
nil darc and fails with "darc is nil" before its oracle is ever consulted. -/
def innerVerify (C : Crypto) (od : Option Darc) : Except String Unit :=
  VerifyCore C (fun _ => .error "darc is nil") od (fun _ => none)

/-- `Darc.Verify` on a possibly-nil darc: `VerifyWithCB` with the constantly
nil callback. -/
def Darc.VerifyO (C : Crypto) (od : Option Darc) : Except String Unit :=
  VerifyCore C (innerVerify C) od (fun _ => none)

/-- `Darc.VerifyWithCB` with a caller-supplied callback; the oracle's
`d.Verify()` on fetched darcs is the plain `Verify`. -/
def Darc.VerifyWithCB (C : Crypto) (od : Option Darc)
    (getDarc : String → Option Darc) : Except String Unit :=
  VerifyCore C (Darc.VerifyO C) od getDarc

/-- `checkEvolutionPermission` as invoked from `VerifyWithCB`: the inner
verification of fetched darcs is the plain `Verify`. -/
def checkEvolutionPermission (C : Crypto) (getDarc : String → Option Darc)
    (expr : Option ExprAST) (ids : List String) : Except String Unit :=
  checkEvolutionPermissionGen C (Darc.VerifyO C) getDarc expr ids

/-- The oracle of `checkEvolutionPermission` as invoked from `VerifyWithCB`. -/
def evolutionOracle (C : Crypto) (getDarc : String → Option Darc)
    (ids : List String) (s : String) : Bool :=
  evolutionOracleGen C (Darc.VerifyO C) getDarc ids s

/-- `Darc.Evolve`: the receiver is mutated field by field (signature cleared,
version and base ID taken from the last path element) before any check
succeeds; the model returns the final state of the receiver together with
the returned error.  The Go source indexes `path[len(path)-1]` before the
`len(path) == 0` check, so an empty path is a runtime panic (index out of
range) rather than the "path should not be empty" error, which is dead
code. -/
def Darc.Evolve (C : Crypto) (d : Darc) (path : List Darc)
    (prevOwner : Option Signer) : Darc × GoR Unit :=
  match path.getLast? with
  | none => (d.setSignature none, .crash "index out of range")
  | some prevDarc =>
    match NewDarcSignature C prevOwner
        ((((d.setSignature none).setVersion (prevDarc.Version + 1)).setBaseID
          (prevDarc.GetBaseID C)).GetID C) path with
    | .error e =>
      (((d.setSignature none).setVersion (prevDarc.Version + 1)).setBaseID
        (prevDarc.GetBaseID C),
       .err ("error creating a darc signature for evolution: " ++ e))
    | .ok sig =>
      (((((d.setSignature none).setVersion (prevDarc.Version + 1)).setBaseID
        (prevDarc.GetBaseID C))).setSignature (some sig), .ok ())

/-- `Request` from struct.go. -/
structure Request where
  ID : List Nat
  Action : Action
  Msg : List Nat
  Identities : List Identity
  Signatures : List (List Nat)

/-- `Request.Hash`: SHA-256 of darc ID, then action bytes, then message; the
identities and signatures are not written to the digest (the Go hash writer
never fails, so the error return is always nil). -/
def Request.Hash (C : Crypto) (r : Request) : List Nat :=
  C.sha256 (r.ID ++ strBytes r.Action ++ r.Msg)

/-- `Request.GetIdentityStrings`. -/
def Request.GetIdentityStrings (C : Crypto) (r : Request) : List String :=
  r.Identities.map (Identity.str C)

/-- The signature-verification loop of `CheckRequest`: the i-th identity is
verified against `r.Signatures[i]`; when the identities outnumber the
signatures the index is out of range and Go panics. -/
def checkSigLoop (C : Crypto) (digest : List Nat) :
    List Identity → List (List Nat) → GoR Unit
  | [], _ => .ok ()
  | _ :: _, [] => .crash "index out of range"
  | i :: is, sg :: sgs =>
    match Identity.Verify C i digest sg with
    | .error e => .err e
    | .ok _ => checkSigLoop C digest is sgs

/-- `Darc.CheckRequest`: ID match, action present, every identity verifies
its signature over the request digest, and the action expression is
satisfied by the supplied identity strings. -/
def Darc.CheckRequest (C : Crypto) (d : Darc) (r : Request) : GoR Unit :=
  if ¬ d.GetID C = r.ID then .err "darc id mismatch"
  else if ¬ d.RulesF.Contains r.Action then .err (r.Action ++ " does not exist")
  else
    match checkSigLoop C (r.Hash C) r.Identities r.Signatures with
    | .err e => .err e
    | .crash e => .crash e
    | .ok _ =>
      match DefaultParser (d.RulesF.lookupE r.Action) (r.GetIdentityStrings C) with
      | .error e => .err e
      | .ok true => .ok ()
      | .ok false => .err "expression evaluated to false"

/-- Membership of an element with the given identity string in a path (the
`PathContains` check of the permission oracle, as a standalone function). -/
def pathHasIdent (C : Crypto) (s : String) (path : List Darc) : Bool :=
  path.any (identEq C s)

/-- The path of a darc's signature (empty when there is no signature). -/
def sigPathOf (d : Darc) : List Darc :=
  match d.SignatureF with
  | some sg => sg.Path
  | none => []

/-- The value the path scan of the permission oracle actually computes: the
evolve rules of the elements from the FIRST element whose identity string
equals the term, INCLUSIVE, to the end of the path. -/
def inclusiveAfterScan (C : Crypto) (ids : List String) (s : String)
    (path : List Darc) : Bool :=
  (path.dropWhile (fun dd => !identEq C s dd)).any (evolveSatB ids)

/-- Follows the claim wording, not the source: scan only the elements
STRICTLY AFTER the element whose identity string equals the term (that
element itself and earlier ancestors excluded). -/
def specStrictlyAfterScan (C : Crypto) (ids : List String) (s : String)
    (path : List Darc) : Bool :=
  ((path.dropWhile (fun dd => !identEq C s dd)).drop 1).any (evolveSatB ids)

/-- A concrete crypto instance for witnesses: the digest of a byte string is
its length, signing prepends the secret scalar, and verification recomputes
the expected signature. -/
def exC : Crypto where
  sha256 := fun m => [m.length]
  pointStr := fun p => "pt" ++ toString p
  schnorrSign := fun sk m => .ok (sk :: m)
  schnorrVerify := fun p m s => if s = p :: m then .ok () else .error "invalid signature"
  ecdsaP384Verify := fun _ _ _ => .error "invalid signature"

/-- A concrete crypto instance with an injective digest, for the request-hash
witness. -/
def injC : Crypto where
  sha256 := fun m => 0 :: m
  pointStr := fun p => "pt" ++ toString p
  schnorrSign := fun sk m => .ok (sk :: m)
  schnorrVerify := fun p m s => if s = p :: m then .ok () else .error "invalid signature"
  ecdsaP384Verify := fun _ _ _ => .error "invalid signature"

/-- A concrete Ed25519 signer whose identity string under `exC` is
"ed25519:pt7". -/
def ownerA : Signer := { Ed25519 := some { Point := 7, Secret := 7 }, X509EC := none }

/-- A concrete genesis darc owned by "ed25519:pt7". -/
def exD0 : Darc := .mk 0 [] [] [(evolveAction, .term "ed25519:pt7")] none

/-- A concrete builder-stage darc for the evolution witness. -/
def exDInit : Darc :=
  .mk 0 [9] [] [("x", .term "ed25519:pt9"), (evolveAction, .term "ed25519:pt7")] none

/-- The evolution of `exD0` produced by `Darc.Evolve` with signer `ownerA`. -/
def exD1 : Darc := (Darc.Evolve exC exDInit [exD0] (some ownerA)).1

/-- A concrete builder-stage darc whose evolve rule admits only
"ed25519:pt8" (so its latest rule is NOT satisfied by `ownerA`). -/
def exB1Init : Darc := .mk 0 [1, 2, 3] [] [(evolveAction, .term "ed25519:pt8")] none

/-- The latest darc of the delegated series of the C2 scenario: evolved from
`exD0` by `ownerA`, but with a latest evolve rule that no longer admits
`ownerA`. -/
def exB1 : Darc := (Darc.Evolve exC exB1Init [exD0] (some ownerA)).1

/-- The identity string of the genesis `exD0` under `exC`. -/
def exS : String := exD0.GetIdentityString exC

/-- A lookup callback returning the latest darc `exB1` for the term `exS`. -/
def exGetDarc : String → Option Darc := fun t => if t = exS then some exB1 else none

/-- The signer identity strings of the C2 scenario. -/
def exIds : List String := ["ed25519:pt7"]

/-- Concrete rules for the rules-operations witness. -/
def exRules : RulesT := [(evolveAction, .term "ed25519:pt7"), ("read", .term "ed25519:pt9")]

/-- A concrete darc holding an action rule, for the request witnesses. -/
def exDR : Darc := .mk 0 [] [] [("act", .term "ed25519:pt7"), (evolveAction, .term "ed25519:pt7")] none

/-- A request with one identity and one signature, accepted by `exDR`. -/
def exReq : Request :=
  { ID := exDR.GetID exC, Action := "act", Msg := [5],
    Identities := [NewIdentityEd25519 7],
    Signatures := [7 :: Request.Hash exC
      { ID := exDR.GetID exC, Action := "act", Msg := [5],
        Identities := [], Signatures := [] }] }

/-- A request with one identity but NO signatures: `CheckRequest` indexes
`r.Signatures[0]` and panics. -/
def exReqShort : Request :=
  { ID := exDR.GetID exC, Action := "act", Msg := [5],
    Identities := [NewIdentityEd25519 7], Signatures := [] }

/-- A request for the request-hash witness. -/
def exReqW : Request :=
  { ID := [1, 2], Action := "act", Msg := [5], Identities := [], Signatures := [] }

/-- Two concrete darcs whose rules hold the same mapping inserted in
different orders, for the canonical-ID witness. -/
def exD4a : Darc := .mk 0 [1] [] [("a", .term "x"), ("b", .term "y")] none

/-- See `exD4a`: the same rules in the opposite insertion order. -/
def exD4b : Darc := .mk 0 [1] [] [("b", .term "y"), ("a", .term "x")] none

@[simp] theorem setSignature_Version (d : Darc) (s : Option DSignature) :
    (d.setSignature s).Version = d.Version := by cases d; rfl

@[simp] theorem setSignature_Description (d : Darc) (s : Option DSignature) :
    (d.setSignature s).Description = d.Description := by cases d; rfl

@[simp] theorem setSignature_BaseID (d : Darc) (s : Option DSignature) :
    (d.setSignature s).BaseID = d.BaseID := by cases d; rfl

@[simp] theorem setSignature_RulesF (d : Darc) (s : Option DSignature) :
    (d.setSignature s).RulesF = d.RulesF := by cases d; rfl

@[simp] theorem setSignature_SignatureF (d : Darc) (s : Option DSignature) :
    (d.setSignature s).SignatureF = s := by cases d; rfl

@[simp] theorem setVersion_Version (d : Darc) (v : Nat) :
    (d.setVersion v).Version = v := by cases d; rfl

@[simp] theorem setVersion_Description (d : Darc) (v : Nat) :
    (d.setVersion v).Description = d.Description := by cases d; rfl

@[simp] theorem setVersion_BaseID (d : Darc) (v : Nat) :
    (d.setVersion v).BaseID = d.BaseID := by cases d; rfl

@[simp] theorem setVersion_RulesF (d : Darc) (v : Nat) :
    (d.setVersion v).RulesF = d.RulesF := by cases d; rfl

@[simp] theorem setVersion_SignatureF (d : Darc) (v : Nat) :
    (d.setVersion v).SignatureF = d.SignatureF := by cases d; rfl

@[simp] theorem setBaseID_Version (d : Darc) (b : List Nat) :
    (d.setBaseID b).Version = d.Version := by cases d; rfl

@[simp] theorem setBaseID_Description (d : Darc) (b : List Nat) :
    (d.setBaseID b).Description = d.Description := by cases d; rfl

@[simp] theorem setBaseID_BaseID (d : Darc) (b : List Nat) :
    (d.setBaseID b).BaseID = b := by cases d; rfl

@[simp] theorem setBaseID_RulesF (d : Darc) (b : List Nat) :
    (d.setBaseID b).RulesF = d.RulesF := by cases d; rfl

@[simp] theorem setBaseID_SignatureF (d : Darc) (b : List Nat) :
    (d.setBaseID b).SignatureF = d.SignatureF := by cases d; rfl

/-- The ID preimage ignores the signature field. -/
@[simp] theorem idPreimage_setSignature (d : Darc) (s : Option DSignature) :
    (d.setSignature s).idPreimage = d.idPreimage := by cases d; rfl

/-- The darc ID ignores the signature field. -/
@[simp] theorem GetID_setSignature (C : Crypto) (d : Darc) (s : Option DSignature) :
    (d.setSignature s).GetID C = d.GetID C := by cases d; rfl

/-- The scan with `pathSearchStart` already set tries every element. -/
theorem pathScan_true_eq_any (C : Crypto) (ids : List String) (s : String)
    (l : List Darc) : pathScan C ids s l true = l.any (evolveSatB ids) := by
  induction l with
  | nil => rfl
  | cons d rest ih => simp [pathScan, ih]

/-- The scan with `pathSearchStart` unset tries exactly the elements from the
first one whose identity string equals `s`, inclusive, to the end. -/
theorem pathScan_false_eq_inclusive (C : Crypto) (ids : List String) (s : String)
    (l : List Darc) : pathScan C ids s l false = inclusiveAfterScan C ids s l := by
  induction l with
  | nil => rfl
  | cons d rest ih =>
    by_cases h : identEq C s d
    · simp [pathScan, inclusiveAfterScan, h, pathScan_true_eq_any]
    · have h2 : identEq C s d = false := by
        cases hb : identEq C s d
        · rfl
        · exact absurd hb h
      simp [pathScan, inclusiveAfterScan, h2, ih]

/-- Assoc-list lookup succeeds exactly on the stored action names. -/
theorem lookupE_isSome_iff_mem (r : RulesT) (a : Action) :
    (r.lookupE a).isSome = true ↔ a ∈ r.map Prod.fst := by
  induction r with
  | nil => simp [RulesT.lookupE, List.lookup]
  | cons p rest ih =>
    obtain ⟨k, v⟩ := p
    by_cases h : a = k
    · subst h; simp [RulesT.lookupE, List.lookup]
    · have hb : (a == k) = false := beq_eq_false_iff_ne.mpr h
      simp only [RulesT.lookupE, List.lookup, hb, List.map, List.mem_cons]
      rw [show (List.lookup a rest).isSome = true ↔ a ∈ List.map Prod.fst rest from ih]
      simp [h]

/-- Looking up the replaced action after a map write on a present action. -/
theorem lookup_mapReplace (r : RulesT) (a : Action) (e : ExprAST) :
    List.lookup a (r.map (fun p => if p.1 = a then (a, e) else p)) =
      (List.lookup a r).map (fun _ => e) := by
  induction r with
  | nil => rfl
  | cons p rest ih =>
    obtain ⟨k, v⟩ := p
    simp only [List.map_cons]
    by_cases h : k = a
    · subst h
      rw [show (if (k, v).1 = k then (k, e) else (k, v)) = (k, e) from if_pos rfl]
      simp [List.lookup, ih]
    · rw [show (if (k, v).1 = a then (a, e) else (k, v)) = (k, v) from if_neg h]
      have hb : (a == k) = false := beq_eq_false_iff_ne.mpr (fun hh => h hh.symm)
      simp [List.lookup, hb, ih]

/-- A map write on action `a` does not touch the entry of any other action. -/
theorem lookup_mapReplace_ne (r : RulesT) (a b : Action) (e : ExprAST)
    (h : ¬ b = a) :
    List.lookup b (r.map (fun p => if p.1 = a then (a, e) else p)) =
      List.lookup b r := by
  induction r with
  | nil => rfl
  | cons p rest ih =>
    obtain ⟨k, v⟩ := p
    simp only [List.map_cons]
    by_cases hk : k = a
    · subst hk
      rw [show (if (k, v).1 = k then (k, e) else (k, v)) = (k, e) from if_pos rfl]
      have hbk : (b == k) = false := beq_eq_false_iff_ne.mpr h
      simp [List.lookup, hbk, ih]
    · rw [show (if (k, v).1 = a then (a, e) else (k, v)) = (k, v) from if_neg hk]
      by_cases hbk : b = k
      · subst hbk; simp [List.lookup]
      · have hb2 : (b == k) = false := beq_eq_false_iff_ne.mpr hbk
        simp [List.lookup, hb2, ih]

/-- Lookup distributes over append, preferring the left list. -/
theorem lookup_append (r l2 : RulesT) (b : Action) :
    List.lookup b (r ++ l2) =
      (match List.lookup b r with
       | some v => some v
       | none => List.lookup b l2) := by
  induction r with
  | nil => rfl
  | cons p rest ih =>
    obtain ⟨k, v⟩ := p
    by_cases hbk : b = k
    · subst hbk; simp [List.lookup]
    · have hb2 : (b == k) = false := beq_eq_false_iff_ne.mpr hbk
      simp [List.lookup, hb2, ih]

/-- Reading back the action just written (`r[a] = e` then `r[a]`). -/
theorem lookupE_set_self (r : RulesT) (a : Action) (e : ExprAST) :
    (r.set a e).lookupE a = some e := by
  unfold RulesT.set
  by_cases hs : (RulesT.lookupE r a).isSome = true
  · rw [if_pos hs]
    show List.lookup a (r.map (fun p => if p.1 = a then (a, e) else p)) = some e
    rw [lookup_mapReplace]
    obtain ⟨v, hv⟩ := Option.isSome_iff_exists.mp hs
    rw [show List.lookup a r = some v from hv]
    rfl
  · rw [if_neg hs]
    show List.lookup a (r ++ [(a, e)]) = some e
    rw [lookup_append]
    have hn : List.lookup a r = none := Option.not_isSome_iff_eq_none.mp hs
    rw [hn]
    simp [List.lookup]

/-- A map write leaves every other action unchanged. -/
theorem lookupE_set_ne (r : RulesT) (a b : Action) (e : ExprAST) (h : ¬ b = a) :
    (r.set a e).lookupE b = r.lookupE b := by
  unfold RulesT.set
  by_cases hs : (RulesT.lookupE r a).isSome = true
  · rw [if_pos hs]
    show List.lookup b (r.map (fun p => if p.1 = a then (a, e) else p)) = List.lookup b r
    exact lookup_mapReplace_ne r a b e h
  · rw [if_neg hs]
    show List.lookup b (r ++ [(a, e)]) = List.lookup b r
    rw [lookup_append]
    have hba : (b == a) = false := beq_eq_false_iff_ne.mpr h
    cases hl : List.lookup b r with
    | some v => rfl
    | none => simp [List.lookup, hba]

/-- Deleting an action removes its entry. -/
theorem lookupE_del_self (r : RulesT) (a : Action) :
    (r.del a).lookupE a = none := by
  show List.lookup a (r.filter (fun p => ¬ p.1 = a)) = none
  induction r with
  | nil => rfl
  | cons p rest ih =>
    obtain ⟨k, v⟩ := p
    rw [List.filter_cons]
    by_cases hk : k = a
    · subst hk
      rw [show (decide ¬ (k, v).1 = k) = false by simp]
      rw [if_neg (by simp)]
      exact ih
    · rw [show (decide ¬ (k, v).1 = a) = true by simp [hk]]
      rw [if_pos rfl]
      have hb : (a == k) = false := beq_eq_false_iff_ne.mpr (fun hh => hk hh.symm)
      simp only [List.lookup, hb]
      exact ih

/-- Deleting an action leaves every other action unchanged. -/
theorem lookupE_del_ne (r : RulesT) (a b : Action) (h : ¬ b = a) :
    (r.del a).lookupE b = r.lookupE b := by
  show List.lookup b (r.filter (fun p => ¬ p.1 = a)) = List.lookup b r
  induction r with
  | nil => rfl
  | cons p rest ih =>
    obtain ⟨k, v⟩ := p
    rw [List.filter_cons]
    by_cases hk : k = a
    · subst hk
      rw [show (decide ¬ (k, v).1 = k) = false by simp]
      rw [if_neg (by simp)]
      have hb : (b == k) = false := beq_eq_false_iff_ne.mpr h
      simp only [List.lookup, hb]
      exact ih
    · rw [show (decide ¬ (k, v).1 = a) = true by simp [hk]]
      rw [if_pos rfl]
      by_cases hbk : b = k
      · subst hbk; simp [List.lookup]
      · have hb2 : (b == k) = false := beq_eq_false_iff_ne.mpr hbk
        simp only [List.lookup, hb2]
        exact ih

/-- The byte encoding of Go strings is injective. -/
theorem strBytes_injective : Function.Injective strBytes := by
  intro s t h
  have hd : s.data = t.data :=
    List.map_injective_iff.mpr
      (fun a b hh => Char.eq_of_val_eq (UInt32.toNat.inj hh)) h
  cases s; cases t; exact congrArg String.mk hd

/-- The byte-lexicographic order is total. -/
theorem bytesLe_total : ∀ L M : List Nat, bytesLe L M = true ∨ bytesLe M L = true := by
  intro L
  induction L with
  | nil => intro M; exact Or.inl rfl
  | cons a as ih =>
    intro M
    cases M with
    | nil => exact Or.inr rfl
    | cons b bs =>
      rcases Nat.lt_trichotomy a b with h | h | h
      · left; simp [bytesLe, h]
      · subst h
        rcases ih bs with h2 | h2
        · left; simp [bytesLe, h2]
        · right; simp [bytesLe, h2]
      · right; simp [bytesLe, h]

/-- Comparing two byte strings with equal heads compares the tails. -/
theorem bytesLe_cons_same (a : Nat) (as bs : List Nat) :
    bytesLe (a :: as) (a :: bs) = bytesLe as bs := by
  simp [bytesLe]

/-- The byte-lexicographic order is transitive. -/
theorem bytesLe_trans : ∀ L M N : List Nat,
    bytesLe L M = true → bytesLe M N = true → bytesLe L N = true := by
  intro L
  induction L with
  | nil => intro M N h1 h2; rfl
  | cons a as ih =>
    intro M N h1 h2
    cases M with
    | nil => simp [bytesLe] at h1
    | cons b bs =>
      cases N with
      | nil => simp [bytesLe] at h2
      | cons c cs =>
        by_cases hab : a < b
        · by_cases hbc : b < c
          · simp [bytesLe, Nat.lt_trans hab hbc]
          · by_cases hbc2 : b = c
            · subst hbc2; simp [bytesLe, hab]
            · simp [bytesLe, hbc, hbc2] at h2
        · by_cases hab2 : a = b
          · subst hab2
            rw [bytesLe_cons_same] at h1
            by_cases hbc : a < c
            · simp [bytesLe, hbc]
            · by_cases hbc2 : a = c
              · subst hbc2
                rw [bytesLe_cons_same] at h2 ⊢
                exact ih bs cs h1 h2
              · simp [bytesLe, hbc, hbc2] at h2
          · simp [bytesLe, hab, hab2] at h1

/-- The byte-lexicographic order is antisymmetric. -/
theorem bytesLe_antisymm : ∀ L M : List Nat,
    bytesLe L M = true → bytesLe M L = true → L = M := by
  intro L
  induction L with
  | nil =>
    intro M h1 h2
    cases M with
    | nil => rfl
    | cons b bs => simp [bytesLe] at h2
  | cons a as ih =>
    intro M h1 h2
    cases M with
    | nil => simp [bytesLe] at h1
    | cons b bs =>
      by_cases hab : a < b
      · have h3 : ¬ b < a := Nat.lt_asymm hab
        have h4 : ¬ b = a := by
          intro hh
          rw [hh] at hab
          exact absurd hab (Nat.lt_irrefl a)
        simp [bytesLe, h3, h4] at h2
      · by_cases hab2 : a = b
        · subst hab2
          rw [bytesLe_cons_same] at h1 h2
          rw [ih bs h1 h2]
        · simp [bytesLe, hab, hab2] at h1

/-- A non-nil byte string is non-empty. -/
theorem isEmpty_false_of_ne_nil {l : List Nat} (h : l ≠ []) : l.isEmpty = false := by
  cases l with
  | nil => exact absurd rfl h
  | cons a as => rfl

/-- On a non-genesis darc, `GetBaseID` returns the stored base ID. -/
theorem GetBaseID_of_ne (C : Crypto) (d : Darc) (h : ¬ d.Version = 0) :
    d.GetBaseID C = d.BaseID := by
  unfold Darc.GetBaseID
  rw [if_neg h]

/-- `GetSignerDarc` returns the last path element when the versions chain. -/
theorem GetSignerDarc_eq (d : Darc) (sg : DSignature) (prev : Darc)
    (h1 : d.SignatureF = some sg) (h2 : sg.Path.getLast? = some prev)
    (h3 : prev.Version + 1 = d.Version) :
    d.GetSignerDarc = .ok (some prev) := by
  unfold Darc.GetSignerDarc
  simp only [h1, h2]
  rw [if_neg (by simp [h3])]

/-- Expression evaluation only depends on the oracle pointwise. -/
theorem evalExpr_congr (o1 o2 : String → Bool) (h : ∀ s, o1 s = o2 s) :
    ∀ a : ExprAST, evalExpr o1 a = evalExpr o2 a := by
  intro a
  induction a with
  | term s => exact h s
  | and x y ihx ihy => simp [evalExpr, ihx, ihy]
  | or x y ihx ihy => simp [evalExpr, ihx, ihy]

/-- The permission oracle only consults `inner` on fetched darcs. -/
theorem evolutionOracleGen_congr (C : Crypto)
    (i1 i2 : Option Darc → Except String Unit)
    (getDarc : String → Option Darc) (ids : List String)
    (h : ∀ s, i1 (getDarc s) = i2 (getDarc s)) (s : String) :
    evolutionOracleGen C i1 getDarc ids s = evolutionOracleGen C i2 getDarc ids s := by
  unfold evolutionOracleGen
  rw [h s]

/-- Permission checking only consults `inner` on fetched darcs. -/
theorem checkEvolutionPermissionGen_congr (C : Crypto)
    (i1 i2 : Option Darc → Except String Unit)
    (getDarc : String → Option Darc) (expr : Option ExprAST) (ids : List String)
    (h : ∀ s, i1 (getDarc s) = i2 (getDarc s)) :
    checkEvolutionPermissionGen C i1 getDarc expr ids =
      checkEvolutionPermissionGen C i2 getDarc expr ids := by
  cases expr with
  | none => rfl
  | some ast =>
    have h2 := evalExpr_congr _ _ (evolutionOracleGen_congr C i1 i2 getDarc ids h) ast
    simp only [checkEvolutionPermissionGen, ParseExpr, h2]

/-- One-evolution verification only consults `inner` on fetched darcs. -/
theorem verifyOneEvolutionGen_congr (C : Crypto)
    (i1 i2 : Option Darc → Except String Unit) (newD : Darc)
    (prevD : Option Darc) (getDarc : String → Option Darc)
    (h : ∀ s, i1 (getDarc s) = i2 (getDarc s)) :
    verifyOneEvolutionGen C i1 newD prevD getDarc =
      verifyOneEvolutionGen C i2 newD prevD getDarc := by
  cases prevD with
  | none => rfl
  | some pv =>
    have h2 : ∀ ids, checkEvolutionPermissionGen C i1 getDarc
        pv.RulesF.GetEvolutionExpr ids =
        checkEvolutionPermissionGen C i2 getDarc pv.RulesF.GetEvolutionExpr ids :=
      fun ids => checkEvolutionPermissionGen_congr C i1 i2 getDarc _ ids h
    simp only [verifyOneEvolutionGen, h2]

/-- The path walk only consults `inner` on fetched darcs. -/
theorem loopPathGo_congr (C : Crypto)
    (i1 i2 : Option Darc → Except String Unit)
    (getDarc : String → Option Darc)
    (h : ∀ s, i1 (getDarc s) = i2 (getDarc s)) :
    ∀ (l : List Darc) (i : Nat) (prev : Option Darc),
      loopPathGo C i1 getDarc i prev l = loopPathGo C i2 getDarc i prev l := by
  intro l
  induction l with
  | nil => intro i prev; rfl
  | cons dP rest ih =>
    intro i prev
    have hOne := verifyOneEvolutionGen_congr C i1 i2 dP prev getDarc h
    simp only [loopPathGo, hOne, ih]

/-- The verifier only consults `inner` on fetched darcs. -/
theorem VerifyCore_congr (C : Crypto)
    (i1 i2 : Option Darc → Except String Unit) (od : Option Darc)
    (getDarc : String → Option Darc)
    (h : ∀ s, i1 (getDarc s) = i2 (getDarc s)) :
    VerifyCore C i1 od getDarc = VerifyCore C i2 od getDarc := by
  have hOne : ∀ nd pd, verifyOneEvolutionGen C i1 nd pd getDarc =
      verifyOneEvolutionGen C i2 nd pd getDarc :=
    fun nd pd => verifyOneEvolutionGen_congr C i1 i2 nd pd getDarc h
  have hLoop : ∀ l i p, loopPathGo C i1 getDarc i p l = loopPathGo C i2 getDarc i p l :=
    fun l i p => loopPathGo_congr C i1 i2 getDarc h l i p
  simp only [VerifyCore, hOne, hLoop]

/-- The recursion knot of `Darc.Verify` is tied correctly: with the
constantly nil callback, the oracle's inner call only ever receives a nil
darc, on which `innerVerify` and the full `Verify` agree (both fail with
"darc is nil"), so `VerifyO` equals `VerifyWithCB` instantiated with itself
and the nil callback — exactly the structure of the Go source. -/
theorem VerifyO_unfold (C : Crypto) (od : Option Darc) :
    Darc.VerifyO C od = VerifyCore C (Darc.VerifyO C) od (fun _ => none) := by
  unfold Darc.VerifyO
  exact VerifyCore_congr C (innerVerify C) _ od (fun _ => none) (fun _ => rfl)

/-- Claim C3: `Evolve` on an empty path must return the "empty path" error,
with the emptiness check performed before any access to the last path
element.  The code instead evaluates `path[len(path)-1]` first, so on the
failing input `path = []` it panics with an index-out-of-range error (after
already having cleared the receiver's signature); the emptiness check and
its error return are dead code. -/
theorem C3_empty_path_panics :
    (Darc.Evolve exC exD0 [] (some ownerA)).2 = GoR.crash "index out of range" ∧
    ((Darc.Evolve exC exD0 [] (some ownerA)).1).SignatureF.isNone = true :=
  ⟨rfl, rfl⟩

/-- Claim C7: in the permission oracle a term beginning with "darc:" for
which the lookup callback returns nil evaluates to unsatisfied (false): the
nil darc is rejected by the nil check of `Verify`, and evaluation continues
without a crash or a propagated error. -/
theorem C7_nil_lookup_unsatisfied (C : Crypto) (getDarc : String → Option Darc)
    (ids : List String) (s : String)
    (h1 : strStarts s "darc:" = true) (h2 : getDarc s = none) :
    evolutionOracle C getDarc ids s = false := by
  have hp : strStarts s "darc" = true := by
    have h4 : "darc".data <+: "darc:".data := by decide
    have h5 : "darc:".data <+: s.data := by
      have h6 := h1
      unfold strStarts at h6
      exact List.isPrefixOf_iff_prefix.mp h6
    unfold strStarts
    exact List.isPrefixOf_iff_prefix.mpr (h4.trans h5)
  unfold evolutionOracle evolutionOracleGen
  rw [hp, h2]
  simp [Darc.VerifyO, VerifyCore, isOkE]

/-- Witness for C7 at a concrete term and callback. -/
theorem C7_witness : evolutionOracle exC (fun _ => none) [] "darc:00" = false :=
  C7_nil_lookup_unsatisfied exC (fun _ => none) [] "darc:00" (by decide) rfl

/-- Claim C8: `Identity.Verify` dispatches on the identity kind: a Darc-kind
identity always returns the unverifiable error and never accepts; an
Ed25519-kind identity returns the Schnorr verification result against the
stored point; an X509EC-kind identity returns the ECDSA-P384 (SHA-384,
PKIX-DER) verification result against the stored public key. -/
theorem C8_verify_dispatch (C : Crypto) (id : Identity) (msg sig : List Nat) :
    (∀ dd, id.Darc = some dd →
      Identity.Verify C id msg sig = .error "cannot verify a darc-signature") ∧
    (id.Darc = none → ∀ e, id.Ed25519 = some e →
      Identity.Verify C id msg sig = IdentityEd25519.Verify C e msg sig) ∧
    (id.Darc = none → id.Ed25519 = none → ∀ x, id.X509EC = some x →
      Identity.Verify C id msg sig = IdentityX509EC.Verify C x msg sig) := by
  refine ⟨?_, ?_, ?_⟩
  · intro dd hdd; simp [Identity.Verify, hdd]
  · intro hD e hE; simp [Identity.Verify, hD, hE]
  · intro hD hE x hX; simp [Identity.Verify, hD, hE, hX]

/-- Witness for C8 on the three concrete identity kinds. -/
theorem C8_witness :
    Identity.Verify exC (NewIdentityDarc [1]) [2] [3] =
      .error "cannot verify a darc-signature" ∧
    Identity.Verify exC (NewIdentityEd25519 7) [2] [3] =
      IdentityEd25519.Verify exC { Point := 7 } [2] [3] ∧
    Identity.Verify exC
        { Darc := none, Ed25519 := none, X509EC := some { Public := [4] } } [2] [3] =
      IdentityX509EC.Verify exC { Public := [4] } [2] [3] :=
  ⟨(C8_verify_dispatch exC (NewIdentityDarc [1]) [2] [3]).1 { ID := [1] } rfl,
   (C8_verify_dispatch exC (NewIdentityEd25519 7) [2] [3]).2.1 rfl { Point := 7 } rfl,
   (C8_verify_dispatch exC
     { Darc := none, Ed25519 := none, X509EC := some { Public := [4] } } [2] [3]).2.2
     rfl rfl { Public := [4] } rfl⟩

/-- Claim C9: `Evolve` is not atomic on failure: with a non-empty path, when
it returns an error the receiver has already been mutated - its signature is
cleared, its version is one more than the last path element's version, and
its base ID is the last path element's base ID; the pre-call values are not
restored. -/
theorem C9_evolve_mutates_on_error (C : Crypto) (d prev : Darc)
    (path : List Darc) (owner : Option Signer)
    (hLast : path.getLast? = some prev)
    (hErr : (Darc.Evolve C d path owner).2.isErr = true) :
    ((Darc.Evolve C d path owner).1).SignatureF = none ∧
    ((Darc.Evolve C d path owner).1).Version = prev.Version + 1 ∧
    ((Darc.Evolve C d path owner).1).BaseID = prev.GetBaseID C := by
  simp only [Darc.Evolve, hLast] at hErr ⊢
  cases hN : NewDarcSignature C owner
      ((((d.setSignature none).setVersion (prev.Version + 1)).setBaseID
        (prev.GetBaseID C)).GetID C) path with
  | error e => simp [hN]
  | ok sig =>
    rw [hN] at hErr
    simp [GoR.isErr] at hErr

/-- Witness for C9: evolving with a missing signer fails but mutates. -/
theorem C9_witness :
    ((Darc.Evolve exC exDInit [exD0] none).1).SignatureF = none ∧
    ((Darc.Evolve exC exDInit [exD0] none).1).Version = exD0.Version + 1 ∧
    ((Darc.Evolve exC exDInit [exD0] none).1).BaseID = exD0.GetBaseID exC :=
  C9_evolve_mutates_on_error exC exDInit exD0 [exD0] none rfl (by decide)

/-- The signature-verification loop of `CheckRequest` cannot go out of
bounds while the identities do not outnumber the signatures. -/
theorem checkSigLoop_no_crash (C : Crypto) (digest : List Nat) :
    ∀ (idl : List Identity) (sgs : List (List Nat)),
      idl.length ≤ sgs.length → (checkSigLoop C digest idl sgs).isCrash = false := by
  intro idl
  induction idl with
  | nil => intro sgs h; rfl
  | cons i is ih =>
    intro sgs h
    cases sgs with
    | nil => simp at h
    | cons sg rest =>
      unfold checkSigLoop
      cases Identity.Verify C i digest sg with
      | error e => rfl
      | ok u => exact ih rest (Nat.le_of_succ_le_succ h)

/-- Claim C10: `CheckRequest` indexes the signatures at each identity index
without first validating the lengths; whenever the signatures are at least
as many as the identities the loop stays in bounds and `CheckRequest`
cannot panic, and the precondition is assumed rather than validated: the
concrete request `exReqShort` (one identity, no signatures) panics. -/
theorem C10_checkrequest_bounds (C : Crypto) (d : Darc) (r : Request)
    (hLen : r.Identities.length ≤ r.Signatures.length) :
    (Darc.CheckRequest C d r).isCrash = false ∧
    Darc.CheckRequest exC exDR exReqShort = GoR.crash "index out of range" := by
  constructor
  · unfold Darc.CheckRequest
    split
    · rfl
    · split
      · rfl
      · split
        · rfl
        · rename_i heq
          have h2 := checkSigLoop_no_crash C (r.Hash C) r.Identities r.Signatures hLen
          rw [heq] at h2
          exact absurd h2 (by simp [GoR.isCrash])
        · split
          · rfl
          · rfl
          · rfl
  · decide

/-- Witness for C10 on a well-formed concrete request. -/
theorem C10_witness : (Darc.CheckRequest exC exDR exReq).isCrash = false :=
  (C10_checkrequest_bounds exC exDR exReq (by decide)).1

/-- Claim C5: the request hash is the SHA-256 digest of the darc ID, then
the action bytes, then the message; it is unchanged by any modification of
the identities or signatures, and (reading SHA-256 as injective) changing
any single one of darc ID, action, or message while the other two are fixed
changes the hash. -/
theorem C5_request_hash (C : Crypto) (r r2 : Request) (ids2 : List Identity)
    (sgs2 : List (List Nat)) (hInj : Function.Injective C.sha256) :
    Request.Hash C { r with Identities := ids2, Signatures := sgs2 } =
      Request.Hash C r ∧
    Request.Hash C r = C.sha256 (r.ID ++ strBytes r.Action ++ r.Msg) ∧
    (r.ID = r2.ID → r.Action = r2.Action →
      Request.Hash C r = Request.Hash C r2 → r.Msg = r2.Msg) ∧
    (r.ID = r2.ID → r.Msg = r2.Msg →
      Request.Hash C r = Request.Hash C r2 → r.Action = r2.Action) ∧
    (r.Action = r2.Action → r.Msg = r2.Msg →
      Request.Hash C r = Request.Hash C r2 → r.ID = r2.ID) := by
  refine ⟨rfl, rfl, ?_, ?_, ?_⟩
  · intro h1 h2 h3
    have h4 := hInj h3
    rw [h1, h2] at h4
    exact List.append_cancel_left h4
  · intro h1 h2 h3
    have h4 := hInj h3
    rw [h1, h2] at h4
    exact strBytes_injective (List.append_cancel_left (List.append_cancel_right h4))
  · intro h1 h2 h3
    have h4 := hInj h3
    rw [h1, h2] at h4
    exact List.append_cancel_right (List.append_cancel_right h4)

/-- Witness for C5 with the injective concrete digest. -/
theorem C5_witness :
    Request.Hash injC
        { exReqW with Identities := [NewIdentityEd25519 3], Signatures := [[9]] } =
      Request.Hash injC exReqW ∧
    Request.Hash injC exReqW =
      injC.sha256 (exReqW.ID ++ strBytes exReqW.Action ++ exReqW.Msg) := by
  have hInj : Function.Injective injC.sha256 := by
    intro a b h
    simpa [injC] using h
  have h := C5_request_hash injC exReqW exReqW [NewIdentityEd25519 3] [[9]] hInj
  exact ⟨h.1, h.2.1⟩

/-- Claim C6: the rules operations - `AddRule` errors exactly when the
action is already present and otherwise inserts it; `UpdateRule` errors
exactly when the action is the evolve action or absent and otherwise
replaces it; `DeleteRules` errors exactly when the action is the evolve
action or absent and otherwise removes it; `UpdateEvolution` replaces the
evolve entry when present; every error case leaves the mapping unchanged,
and every success case changes only the entry of the named action (the
last conjunct characterizes the write and delete at every key). -/
theorem C6_rules_ops (r : RulesT) (a : Action) (e : ExprAST) :
    ((r.AddRule a e).2 = .ok () ↔ r.Contains a = false) ∧
    (r.Contains a = true → r.AddRule a e = (r, .error "action already exists")) ∧
    (r.Contains a = false → r.AddRule a e = (r.set a e, .ok ())) ∧
    ((r.UpdateRule a e).2 = .ok () ↔ (¬ a = evolveAction ∧ r.Contains a = true)) ∧
    (¬ a = evolveAction → r.Contains a = true →
      r.UpdateRule a e = (r.set a e, .ok ())) ∧
    (a = evolveAction ∨ r.Contains a = false → (r.UpdateRule a e).1 = r ∧
      (r.UpdateRule a e).2.isOk = false) ∧
    ((r.DeleteRules a).2 = .ok () ↔ (¬ a = evolveAction ∧ r.Contains a = true)) ∧
    (¬ a = evolveAction → r.Contains a = true →
      r.DeleteRules a = (r.del a, .ok ())) ∧
    (a = evolveAction ∨ r.Contains a = false → (r.DeleteRules a).1 = r ∧
      (r.DeleteRules a).2.isOk = false) ∧
    (r.Contains evolveAction = true →
      r.UpdateEvolution e = (r.set evolveAction e, .ok ())) ∧
    (r.Contains evolveAction = false →
      r.UpdateEvolution e = (r, .error "action does not exist")) ∧
    ((r.set a e).lookupE a = some e ∧ (r.del a).lookupE a = none ∧
      ∀ b, ¬ b = a →
        (r.set a e).lookupE b = r.lookupE b ∧ (r.del a).lookupE b = r.lookupE b) := by
  have hC : r.Contains a = (r.lookupE a).isSome := rfl
  refine ⟨?_, ?_, ?_, ?_, ?_, ?_, ?_, ?_, ?_, ?_, ?_, ?_⟩
  · constructor
    · intro h
      by_cases hs : (r.lookupE a).isSome = true
      · rw [show r.AddRule a e = (r, .error "action already exists") from by
          unfold RulesT.AddRule; rw [if_pos hs]] at h
        exact absurd h (by simp)
      · rw [hC]; simpa using hs
    · intro h
      have hs : (r.lookupE a).isSome = false := by rw [hC] at h; exact h
      unfold RulesT.AddRule
      rw [if_neg (by simp [hs])]
  · intro h
    have hs : (r.lookupE a).isSome = true := by rw [hC] at h; exact h
    unfold RulesT.AddRule
    rw [if_pos hs]
  · intro h
    have hs : (r.lookupE a).isSome = false := by rw [hC] at h; exact h
    unfold RulesT.AddRule
    rw [if_neg (by simp [hs])]
  · constructor
    · intro h
      by_cases hev : isEvolution a = true
      · rw [show r.UpdateRule a e = (r, .error "cannot update evolution") from by
          unfold RulesT.UpdateRule; rw [if_pos hev]] at h
        exact absurd h (by simp)
      · have hev2 : ¬ a = evolveAction := by
          intro hh; exact hev (by simp [isEvolution, hh])
        refine ⟨hev2, ?_⟩
        by_cases hs : (r.lookupE a).isSome = true
        · rw [hC]; exact hs
        · rw [show r.UpdateRule a e = (r, .error "action does not exist") from by
            unfold RulesT.UpdateRule RulesT.updateRule
            rw [if_neg hev, if_neg hs]] at h
          exact absurd h (by simp)
    · intro ⟨h1, h2⟩
      have hev : isEvolution a = false := by simp [isEvolution, h1]
      have hs : (r.lookupE a).isSome = true := by rw [hC] at h2; exact h2
      unfold RulesT.UpdateRule RulesT.updateRule
      rw [if_neg (by simp [hev]), if_pos hs]
  · intro h1 h2
    have hev : isEvolution a = false := by simp [isEvolution, h1]
    have hs : (r.lookupE a).isSome = true := by rw [hC] at h2; exact h2
    unfold RulesT.UpdateRule RulesT.updateRule
    rw [if_neg (by simp [hev]), if_pos hs]
  · intro h
    cases h with
    | inl h1 =>
      have hev : isEvolution a = true := by simp [isEvolution, h1]
      unfold RulesT.UpdateRule
      rw [if_pos hev]
      exact ⟨rfl, rfl⟩
    | inr h2 =>
      have hs : (r.lookupE a).isSome = false := by rw [hC] at h2; exact h2
      unfold RulesT.UpdateRule RulesT.updateRule
      by_cases hev : isEvolution a = true
      · rw [if_pos hev]; exact ⟨rfl, rfl⟩
      · rw [if_neg hev, if_neg (by simp [hs])]
        exact ⟨rfl, rfl⟩
  · constructor
    · intro h
      by_cases hev : isEvolution a = true
      · rw [show r.DeleteRules a = (r, .error "cannot delete evolution") from by
          unfold RulesT.DeleteRules; rw [if_pos hev]] at h
        exact absurd h (by simp)
      · have hev2 : ¬ a = evolveAction := by
          intro hh; exact hev (by simp [isEvolution, hh])
        refine ⟨hev2, ?_⟩
        by_cases hs : (r.lookupE a).isSome = true
        · rw [hC]; exact hs
        · rw [show r.DeleteRules a = (r, .error "action does not exist") from by
            unfold RulesT.DeleteRules
            rw [if_neg hev, if_neg hs]] at h
          exact absurd h (by simp)
    · intro ⟨h1, h2⟩
      have hev : isEvolution a = false := by simp [isEvolution, h1]
      have hs : (r.lookupE a).isSome = true := by rw [hC] at h2; exact h2
      unfold RulesT.DeleteRules
      rw [if_neg (by simp [hev]), if_pos hs]
  · intro h1 h2
    have hev : isEvolution a = false := by simp [isEvolution, h1]
    have hs : (r.lookupE a).isSome = true := by rw [hC] at h2; exact h2
    unfold RulesT.DeleteRules
    rw [if_neg (by simp [hev]), if_pos hs]
  · intro h
    cases h with
    | inl h1 =>
      have hev : isEvolution a = true := by simp [isEvolution, h1]
      unfold RulesT.DeleteRules
      rw [if_pos hev]
      exact ⟨rfl, rfl⟩
    | inr h2 =>
      have hs : (r.lookupE a).isSome = false := by rw [hC] at h2; exact h2
      unfold RulesT.DeleteRules
      by_cases hev : isEvolution a = true
      · rw [if_pos hev]; exact ⟨rfl, rfl⟩
      · rw [if_neg hev, if_neg (by simp [hs])]
        exact ⟨rfl, rfl⟩
  · intro h
    have hs : (r.lookupE evolveAction).isSome = true := h
    unfold RulesT.UpdateEvolution RulesT.updateRule
    rw [if_pos hs]
  · intro h
    have hs : (r.lookupE evolveAction).isSome = false := h
    unfold RulesT.UpdateEvolution RulesT.updateRule
    rw [if_neg (by simp [hs])]
  · refine ⟨lookupE_set_self r a e, lookupE_del_self r a, ?_⟩
    intro b hb
    exact ⟨lookupE_set_ne r a b e hb, lookupE_del_ne r a b hb⟩

/-- Witness for C6 on concrete rules: adding a present action errors and
leaves the mapping unchanged; updating and deleting the evolve action error;
deleting a present plain action succeeds and removes exactly that entry. -/
theorem C6_witness :
    RulesT.AddRule exRules "read" (.term "z") =
      (exRules, .error "action already exists") ∧
    (RulesT.UpdateRule exRules evolveAction (.term "z")).1 = exRules ∧
    (RulesT.DeleteRules exRules evolveAction).1 = exRules ∧
    RulesT.DeleteRules exRules "read" = (exRules.del "read", .ok ()) ∧
    (exRules.del "read").lookupE "read" = none ∧
    (exRules.del "read").lookupE evolveAction = exRules.lookupE evolveAction := by
  have h1 := C6_rules_ops exRules "read" (.term "z")
  have h2 := C6_rules_ops exRules evolveAction (.term "z")
  refine ⟨h1.2.1 (by decide), (h2.2.2.2.2.2.1 (Or.inl rfl)).1,
    (h2.2.2.2.2.2.2.2.2.1 (Or.inl rfl)).1, h1.2.2.2.2.2.2.2.1 (by decide) (by decide),
    h1.2.2.2.2.2.2.2.2.2.2.2.2.1, ?_⟩
  exact (h1.2.2.2.2.2.2.2.2.2.2.2.2.2 evolveAction (by decide)).2

/-- Claim C4: the darc ID is the SHA-256 digest of the 8 little-endian
version bytes, then the description, then the base ID, then (for each action
in byte-lexicographic order of action name) the action name bytes followed
by the expression bytes; the signature field is not hashed; consequently two
darcs with equal version, description, base ID and rules mapping have equal
IDs regardless of their signatures and of the insertion order of the rules. -/
theorem C4_canonical_id (C : Crypto) (d1 d2 : Darc)
    (hn1 : (d1.RulesF.map Prod.fst).Nodup) (hn2 : (d2.RulesF.map Prod.fst).Nodup)
    (hv : d1.Version = d2.Version) (hd : d1.Description = d2.Description)
    (hb : d1.BaseID = d2.BaseID)
    (hr : ∀ a, d1.RulesF.lookupE a = d2.RulesF.lookupE a) :
    d1.GetID C = C.sha256 d1.idPreimage ∧
    (∀ so, (d1.setSignature so).GetID C = d1.GetID C) ∧
    d1.GetID C = d2.GetID C := by
  refine ⟨rfl, fun so => GetID_setSignature C d1 so, ?_⟩
  haveI instT : IsTotal String (fun a b => strLeB a b = true) :=
    ⟨fun a b => bytesLe_total (strBytes a) (strBytes b)⟩
  haveI instTr : IsTrans String (fun a b => strLeB a b = true) :=
    ⟨fun a b c => bytesLe_trans (strBytes a) (strBytes b) (strBytes c)⟩
  haveI instA : IsAntisymm String (fun a b => strLeB a b = true) :=
    ⟨fun a b h1 h2 =>
      strBytes_injective (bytesLe_antisymm (strBytes a) (strBytes b) h1 h2)⟩
  have hmem : ∀ a, a ∈ d1.RulesF.map Prod.fst ↔ a ∈ d2.RulesF.map Prod.fst := by
    intro a
    rw [← lookupE_isSome_iff_mem, ← lookupE_isSome_iff_mem, hr a]
  have hperm : List.Perm (d1.RulesF.map Prod.fst) (d2.RulesF.map Prod.fst) :=
    (List.perm_ext_iff_of_nodup hn1 hn2).mpr hmem
  have hsorted :
      List.insertionSort (fun a b => strLeB a b = true) (d1.RulesF.map Prod.fst) =
      List.insertionSort (fun a b => strLeB a b = true) (d2.RulesF.map Prod.fst) := by
    exact List.eq_of_perm_of_sorted
      ((List.perm_insertionSort _ _).trans
        (hperm.trans (List.perm_insertionSort _ _).symm))
      (List.sorted_insertionSort _ _) (List.sorted_insertionSort _ _)
  have hrules : rulesHashBytes d1.RulesF = rulesHashBytes d2.RulesF := by
    unfold rulesHashBytes
    rw [hsorted]
    have hf : (fun a => strBytes a ++ (match d1.RulesF.lookupE a with
        | some e => exprBytes e
        | none => ([] : List Nat))) =
        (fun a => strBytes a ++ (match d2.RulesF.lookupE a with
        | some e => exprBytes e
        | none => ([] : List Nat))) :=
      funext (fun a => by rw [hr a])
    rw [hf]
  unfold Darc.GetID Darc.idPreimage
  rw [hv, hd, hb, hrules]

/-- Witness for C4: the same rules mapping inserted in opposite orders
yields the same ID. -/
theorem C4_witness : exD4a.GetID exC = exD4b.GetID exC := by
  have hr : ∀ a, exD4a.RulesF.lookupE a = exD4b.RulesF.lookupE a := by
    intro a
    by_cases h1 : a = "a"
    · subst h1; decide
    · by_cases h2 : a = "b"
      · subst h2; decide
      · have ha : (a == "a") = false := beq_eq_false_iff_ne.mpr h1
        have hb2 : (a == "b") = false := beq_eq_false_iff_ne.mpr h2
        show List.lookup a _ = List.lookup a _
        simp [List.lookup, ha, hb2]
  exact (C4_canonical_id exC exD4a exD4b (by decide) (by decide) rfl rfl rfl hr).2.2

/-- Claim C2 as amended: for a "darc"-prefixed term whose fetched darc
verifies, whose path contains an element with the term's identity string,
and whose latest evolve rule is not satisfied by the signer identity
strings, the term is satisfied exactly when some darc of the path AT OR
AFTER the first element whose identity string equals the term (that element
INCLUDED) has an evolve rule satisfied by the signer identity strings.  (The
claim as frozen excludes the matching element itself; the code includes it -
see the counterexample.) -/
theorem C2_scan_from_matching_element (C : Crypto)
    (getDarc : String → Option Darc) (ids : List String) (s : String)
    (d : Darc) (sg : DSignature)
    (h1 : strStarts s "darc" = true)
    (h2 : getDarc s = some d)
    (h3 : Darc.VerifyO C (some d) = .ok ())
    (h4 : d.SignatureF = some sg)
    (h5 : pathHasIdent C s sg.Path = true)
    (h6 : ¬ DefaultParser d.RulesF.GetEvolutionExpr ids = .ok true) :
    evolutionOracle C getDarc ids s = inclusiveAfterScan C ids s sg.Path := by
  have h5b : sg.PathContains (identEq C s) = true := h5
  unfold evolutionOracle evolutionOracleGen
  rw [h1, h2, h3]
  simp only [isOkE, h4, h5b]
  rw [if_pos trivial, if_neg (by simp), if_neg (by simp)]
  cases hD : DefaultParser d.RulesF.GetEvolutionExpr ids with
  | error e => exact pathScan_false_eq_inclusive C ids s sg.Path
  | ok b =>
    cases b with
    | true => exact absurd hD h6
    | false => exact pathScan_false_eq_inclusive C ids s sg.Path

/-- Witness for the amended C2 at the concrete delegation scenario. -/
theorem C2_witness :
    evolutionOracle exC exGetDarc exIds exS = inclusiveAfterScan exC exIds exS [exD0] :=
  C2_scan_from_matching_element exC exGetDarc exIds exS exB1
    ⟨[7, 2], NewIdentityEd25519 7, [exD0]⟩
    (by decide) rfl (by decide) rfl (by decide) (by decide)

/-- Counterexample to Claim C2 as frozen: in the concrete scenario the term
`exS` satisfies every hypothesis of the claim (darc-prefixed, fetched darc
`exB1` verifies, its one-element path `[exD0]` contains the element whose
identity string is `exS`, and the latest evolve rule is not satisfied by the
signer identity strings), the code evaluates the term to SATISFIED - the
scan starts at the element equal to `exS` inclusive, and that element's
evolve rule admits the signer - while the claim's strictly-after scan (the
matching element excluded) is unsatisfied. -/
theorem C2_counterexample :
    strStarts exS "darc:" = true ∧
    exGetDarc exS = some exB1 ∧
    Darc.VerifyO exC (some exB1) = .ok () ∧
    pathHasIdent exC exS (sigPathOf exB1) = true ∧
    decide (DefaultParser (RulesT.GetEvolutionExpr (Darc.RulesF exB1)) exIds =
      .ok true) = false ∧
    evolutionOracle exC exGetDarc exIds exS = true ∧
    specStrictlyAfterScan exC exIds exS (sigPathOf exB1) = false :=
  ⟨by decide, rfl, by decide, by decide, by decide, by decide, by decide⟩

/-- Claim C1: evolution closure - for every genesis darc `d0` (version 0)
and every signer whose identity string satisfies the evolve rule of `d0`
(evaluated exactly as the verifier evaluates it), if a darc is produced by
`Evolve` over the path `[d0]` signed by that signer (the call returning no
error), then it passes `Verify` and its base ID equals the ID of `d0`.  The
crypto assumptions are that SHA-256 digests are never empty and that a
signature produced by `Sign` verifies under the signer's matching identity. -/
theorem C1_evolution_closure (C : Crypto) (d0 dInit : Darc) (owner : Signer)
    (hShaNe : ∀ m, C.sha256 m ≠ [])
    (hSig : ∀ msg sb idn, owner.Sign C msg = .ok sb → owner.IdentityOf = some idn →
      Identity.Verify C idn msg sb = .ok ())
    (hV0 : d0.Version = 0)
    (hSat : ∀ idn, owner.IdentityOf = some idn →
      checkEvolutionPermissionGen C (innerVerify C) (fun _ => none)
        d0.RulesF.GetEvolutionExpr [Identity.str C idn] = .ok ())
    (hOk : (Darc.Evolve C dInit [d0] (some owner)).2 = .ok ()) :
    Darc.VerifyO C (some (Darc.Evolve C dInit [d0] (some owner)).1) = .ok () ∧
    (Darc.Evolve C dInit [d0] (some owner)).1.GetBaseID C = d0.GetID C := by
  have hLast : ([d0] : List Darc).getLast? = some d0 := rfl
  rcases hNS : NewDarcSignature C (some owner)
      ((((dInit.setSignature none).setVersion (d0.Version + 1)).setBaseID
        (d0.GetBaseID C)).GetID C) [d0] with e | sig
  · simp only [Darc.Evolve, hLast, hNS] at hOk
    exact absurd hOk (by simp)
  · simp only [Darc.Evolve, hLast, hNS] at hOk ⊢
    have hGB0 : Darc.GetBaseID C d0 = Darc.GetID C d0 := by
      unfold Darc.GetBaseID; rw [if_pos hV0]
    have hEm : ((((dInit.setSignature none).setVersion (d0.Version + 1)).setBaseID
        (Darc.GetBaseID C d0)).GetID C).isEmpty = false :=
      isEmpty_false_of_ne_nil (hShaNe _)
    simp only [NewDarcSignature] at hNS
    rw [if_neg (by simp [hEm])] at hNS
    rw [if_neg (by simp [List.isEmpty])] at hNS
    rcases hs : Signer.Sign C owner (hashAll C
        [(((dInit.setSignature none).setVersion (d0.Version + 1)).setBaseID
          (Darc.GetBaseID C d0)).GetID C, darcsMsg C [d0]]) with e2 | sb
    · rw [hs] at hNS; simp at hNS
    · rw [hs] at hNS
      rcases hi : owner.IdentityOf with _ | idn
      · rw [hi] at hNS; simp at hNS
      · rw [hi] at hNS
        simp only [Except.ok.injEq] at hNS
        subst hNS
        have hB1 : ((((dInit.setSignature none).setVersion (d0.Version + 1)).setBaseID
            (Darc.GetBaseID C d0)).setSignature
            (some ⟨sb, idn, [d0]⟩)).BaseID = Darc.GetID C d0 := by
          rw [setSignature_BaseID, setBaseID_BaseID, hGB0]
        have hGBd1 : ((((dInit.setSignature none).setVersion (d0.Version + 1)).setBaseID
            (Darc.GetBaseID C d0)).setSignature
            (some ⟨sb, idn, [d0]⟩)).GetBaseID C = Darc.GetID C d0 := by
          rw [GetBaseID_of_ne C _ (by simp), hB1]
        refine ⟨?_, hGBd1⟩
        have hLoop : loopPathGo C (innerVerify C) (fun _ => none) 0 none [d0] = .ok () := by
          unfold loopPathGo
          rw [if_pos ⟨rfl, hV0⟩]
          rfl
        have hGSD : ((((dInit.setSignature none).setVersion (d0.Version + 1)).setBaseID
            (Darc.GetBaseID C d0)).setSignature
            (some ⟨sb, idn, [d0]⟩)).GetSignerDarc = .ok (some d0) :=
          GetSignerDarc_eq _ ⟨sb, idn, [d0]⟩ d0 (setSignature_SignatureF _ _) hLast
            (by rw [setSignature_Version, setBaseID_Version, setVersion_Version])
        have hSV : SignatureG.verify C ⟨sb, idn, [d0]⟩
            (((((dInit.setSignature none).setVersion (d0.Version + 1)).setBaseID
              (Darc.GetBaseID C d0)).setSignature (some ⟨sb, idn, [d0]⟩)).GetID C)
            (Darc.GetBaseID C d0) = .ok () := by
          simp only [SignatureG.verify]
          rw [show (Darc.GetBaseID C d0).isEmpty = false from by
            rw [hGB0]; exact isEmpty_false_of_ne_nil (hShaNe _)]
          rw [if_neg (by simp)]
          rw [if_neg (by simp [hGB0])]
          rw [GetID_setSignature]
          exact hSig _ _ _ hs hi
        have hVOE : verifyOneEvolutionGen C (innerVerify C)
            ((((dInit.setSignature none).setVersion (d0.Version + 1)).setBaseID
              (Darc.GetBaseID C d0)).setSignature (some ⟨sb, idn, [d0]⟩))
            (some d0) (fun _ => none) = .ok () := by
          simp only [verifyOneEvolutionGen]
          rw [show ((((dInit.setSignature none).setVersion (d0.Version + 1)).setBaseID
              (Darc.GetBaseID C d0)).setSignature
              (some ⟨sb, idn, [d0]⟩)).BaseID.isEmpty = false from by
            rw [hB1]; exact isEmpty_false_of_ne_nil (hShaNe _)]
          rw [if_neg (by simp)]
          have hEqB : Darc.GetBaseID C
              ((((dInit.setSignature none).setVersion (d0.Version + 1)).setBaseID
                (Darc.GetBaseID C d0)).setSignature
                (some ⟨sb, idn, [d0]⟩)) = Darc.GetBaseID C d0 := by
            rw [hGBd1, hGB0]
          rw [if_neg (by simp [hEqB])]
          rw [if_neg (by simp)]
          simp only [setSignature_SignatureF]
          rw [hSat idn hi]
          exact hSV
        unfold Darc.VerifyO
        simp only [VerifyCore]
        rw [if_neg (by simp)]
        simp only [setSignature_SignatureF]
        rw [if_neg (by simp [List.isEmpty])]
        simp only [hLoop, hGSD]
        exact hVOE

/-- Witness for C1 at the concrete genesis darc and Ed25519 signer. -/
theorem C1_witness :
    Darc.VerifyO exC (some (Darc.Evolve exC exDInit [exD0] (some ownerA)).1) = .ok () ∧
    (Darc.Evolve exC exDInit [exD0] (some ownerA)).1.GetBaseID exC = exD0.GetID exC := by
  refine C1_evolution_closure exC exD0 exDInit ownerA ?_ ?_ rfl ?_ (by decide)
  · intro m h
    simp [exC] at h
  · intro msg sb idn hsg hid
    by_cases he : msg.isEmpty = true
    · simp [Signer.Sign, he] at hsg
    · simp [Signer.Sign, he, ownerA, SignerEd25519.Sign, exC] at hsg
      simp [ownerA, Signer.IdentityOf, NewIdentityEd25519] at hid
      subst hid
      simp [Identity.Verify, NewIdentityEd25519, IdentityEd25519.Verify, exC, hsg]
  · intro idn hid
    simp [ownerA, Signer.IdentityOf, NewIdentityEd25519] at hid
    subst hid
    decide

end DarcSpec
